import Mathlib

set_option maxHeartbeats 1000000

/-! Shallow embedding of the two converter scripts `excel2json.py` and
`json2excel.py`: decimal rendering of integers, ISO-8601 date handling,
the JSON-to-cell value coercion `coerce_value`, the cell-to-JSON
serialisation hook `json_default`, merged-cell lookup construction and
resolution, header deduplication, table-name uniquification, table
reconstruction bounds, and merged-range application. -/

/-- Decimal digits of a natural number, most significant first, by
structural recursion on a fuel bound (any `fuel ≥ n` yields all digits).
Models the decimal rendering performed by Python `str(int)` and
f-string interpolation of integers. -/
def pyStrNatAux : Nat → Nat → List Char
  | _, 0 => []
  | 0, _ + 1 => []
  | fuel + 1, n + 1 => pyStrNatAux fuel ((n + 1) / 10) ++ [Nat.digitChar ((n + 1) % 10)]

/-- Python `str(n)` for a natural number `n`. -/
def pyStrNat (n : Nat) : String := if n = 0 then "0" else ⟨pyStrNatAux n n⟩

/-- Python `str(i)` for an integer `i`. -/
def pyStrInt (i : Int) : String :=
  if i < 0 then "-" ++ pyStrNat i.natAbs else pyStrNat i.natAbs

/-- Value of a list of decimal digit characters, used to invert
`pyStrNatAux` in correctness proofs. -/
def ofDigitChars (cs : List Char) : Nat :=
  cs.foldl (fun a c => 10 * a + (c.toNat - 48)) 0

theorem ofDigitChars_append (cs : List Char) (c : Char) :
    ofDigitChars (cs ++ [c]) = 10 * ofDigitChars cs + (c.toNat - 48) := by
  simp [ofDigitChars, List.foldl_append]

theorem digitChar_toNat {m : Nat} (h : m < 10) : (Nat.digitChar m).toNat = 48 + m := by
  interval_cases m <;> rfl

theorem digitChar_isDigit {m : Nat} (h : m < 10) : (Nat.digitChar m).isDigit = true := by
  interval_cases m <;> rfl

theorem digitChar_ne_underscore {m : Nat} (h : m < 10) : Nat.digitChar m ≠ '_' := by
  interval_cases m <;> decide

theorem pyStrNatAux_spec : ∀ (fuel n : Nat), n ≤ fuel →
    ofDigitChars (pyStrNatAux fuel n) = n := by
  intro fuel
  induction fuel with
  | zero =>
    intro n hn
    interval_cases n
    rfl
  | succ f ih =>
    intro n hn
    match n with
    | 0 => rfl
    | m + 1 =>
      have hdiv : (m + 1) / 10 ≤ f := by
        have h1 : (m + 1) / 10 < m + 1 := Nat.div_lt_self (Nat.succ_pos m) (by norm_num)
        omega
      have hmod : (m + 1) % 10 < 10 := Nat.mod_lt _ (by norm_num)
      rw [pyStrNatAux, ofDigitChars_append, ih _ hdiv, digitChar_toNat hmod]
      omega

theorem pyStrNatAux_digits : ∀ (fuel n : Nat), ∀ c ∈ pyStrNatAux fuel n, c.isDigit = true := by
  intro fuel
  induction fuel with
  | zero =>
    intro n c hc
    match n with
    | 0 => simp [pyStrNatAux] at hc
    | m + 1 => simp [pyStrNatAux] at hc
  | succ f ih =>
    intro n c hc
    match n with
    | 0 => simp [pyStrNatAux] at hc
    | m + 1 =>
      rw [pyStrNatAux] at hc
      rcases List.mem_append.mp hc with h | h
      · exact ih _ c h
      · have hmod : (m + 1) % 10 < 10 := Nat.mod_lt _ (by norm_num)
        simp at h
        subst h
        exact digitChar_isDigit hmod

theorem pyStrNat_no_underscore (n : Nat) : '_' ∉ (pyStrNat n).data := by
  unfold pyStrNat
  split
  · decide
  · intro hmem
    have := pyStrNatAux_digits n n _ hmem
    simp at this

theorem pyStrNat_length_pos (n : Nat) : 0 < (pyStrNat n).length := by
  unfold pyStrNat
  split
  · decide
  · rename_i hn
    match n, hn with
    | m + 1, _ =>
      show 0 < (pyStrNatAux (m + 1) (m + 1)).length
      rw [pyStrNatAux]
      simp

theorem pyStrNat_injective : Function.Injective pyStrNat := by
  intro a b hab
  unfold pyStrNat at hab
  by_cases ha : a = 0 <;> by_cases hb : b = 0
  · omega
  · exfalso
    simp [ha, hb] at hab
    have h0 : ofDigitChars (pyStrNatAux b b) = b := pyStrNatAux_spec b b le_rfl
    have : ("0" : String).data = (pyStrNatAux b b : List Char) := congrArg String.data hab
    rw [← this] at h0
    have : ofDigitChars ("0" : String).data = 0 := rfl
    omega
  · exfalso
    simp [ha, hb] at hab
    have h0 : ofDigitChars (pyStrNatAux a a) = a := pyStrNatAux_spec a a le_rfl
    have : (pyStrNatAux a a : List Char) = ("0" : String).data := congrArg String.data hab
    rw [this] at h0
    have : ofDigitChars ("0" : String).data = 0 := rfl
    omega
  · simp [ha, hb] at hab
    have hd : (pyStrNatAux a a : List Char) = pyStrNatAux b b := congrArg String.data hab
    have h1 : ofDigitChars (pyStrNatAux a a) = a := pyStrNatAux_spec a a le_rfl
    have h2 : ofDigitChars (pyStrNatAux b b) = b := pyStrNatAux_spec b b le_rfl
    rw [hd] at h1
    omega

/-- JSON values as produced by Python `json.load` on the canonical schema:
null, booleans, numbers, strings, arrays, objects.  Numbers are modelled
by integers; the converters only ever pass numbers through unchanged, so
their internal structure is never inspected. -/
inductive JValue where
  | null : JValue
  | bool : Bool → JValue
  | num : Int → JValue
  | str : String → JValue
  | arr : List JValue → JValue
  | obj : List (String × JValue) → JValue

/-- Python `datetime.date`. -/
structure PyDate where
  year : Nat
  month : Nat
  day : Nat
deriving DecidableEq

/-- Python `datetime.datetime` (microseconds omitted: the modelled
ISO subset only produces whole seconds). -/
structure PyDatetime where
  year : Nat
  month : Nat
  day : Nat
  hour : Nat
  minute : Nat
  second : Nat
deriving DecidableEq

/-- Values held by a worksheet cell after reverse-pipeline coercion. -/
inductive PyCell where
  | null : PyCell
  | bool : Bool → PyCell
  | num : Int → PyCell
  | str : String → PyCell
  | date : PyDate → PyCell
  | dt : PyDatetime → PyCell

/-- Zero-padded two-digit decimal rendering. -/
def pad2 (n : Nat) : String := if n < 10 then "0" ++ pyStrNat n else pyStrNat n

/-- Zero-padded four-digit decimal rendering (Python dates pad the year
to four digits). -/
def pad4 (n : Nat) : String :=
  if n < 10 then "000" ++ pyStrNat n
  else if n < 100 then "00" ++ pyStrNat n
  else if n < 1000 then "0" ++ pyStrNat n
  else pyStrNat n

/-- Python `date.isoformat()`: `YYYY-MM-DD`. -/
def PyDate.isoformat (d : PyDate) : String :=
  pad4 d.year ++ "-" ++ pad2 d.month ++ "-" ++ pad2 d.day

/-- Python `datetime.isoformat()` with the default `T` separator and zero
microseconds: `YYYY-MM-DDTHH:MM:SS`. -/
def PyDatetime.isoformat (t : PyDatetime) : String :=
  pad4 t.year ++ "-" ++ pad2 t.month ++ "-" ++ pad2 t.day ++ "T" ++
    pad2 t.hour ++ ":" ++ pad2 t.minute ++ ":" ++ pad2 t.second

/-- Python `str(datetime)`, which uses a space separator. -/
def pyDatetimeStr (t : PyDatetime) : String :=
  pad4 t.year ++ "-" ++ pad2 t.month ++ "-" ++ pad2 t.day ++ " " ++
    pad2 t.hour ++ ":" ++ pad2 t.minute ++ ":" ++ pad2 t.second

/-- Gregorian leap-year test, as in Python `calendar`/`datetime`. -/
def isLeapYear (y : Nat) : Bool := (y % 4 == 0 && y % 100 != 0) || y % 400 == 0

/-- Days in a month, as validated by Python `datetime.date`. -/
def daysInMonth (y m : Nat) : Nat :=
  if m == 2 then (if isLeapYear y then 29 else 28)
  else if m == 4 || m == 6 || m == 9 || m == 11 then 30
  else 31

/-- Numeric value of a decimal digit character, `none` otherwise. -/
def digitValue (c : Char) : Option Nat :=
  if c.isDigit then some (c.toNat - 48) else none

/-- Two decimal digit characters as a number. -/
def twoDigits (a b : Char) : Option Nat :=
  match digitValue a, digitValue b with
  | some x, some y => some (10 * x + y)
  | _, _ => none

/-- Four decimal digit characters as a number. -/
def fourDigits (a b c d : Char) : Option Nat :=
  match digitValue a, digitValue b, digitValue c, digitValue d with
  | some w, some x, some y, some z => some (1000 * w + 100 * x + 10 * y + z)
  | _, _, _, _ => none

/-- Range-check a parsed calendar date as Python `datetime.date` does. -/
def mkValidDate (y m d : Nat) : Option PyDate :=
  if 1 ≤ y ∧ y ≤ 9999 ∧ 1 ≤ m ∧ m ≤ 12 ∧ 1 ≤ d ∧ d ≤ daysInMonth y m then
    some ⟨y, m, d⟩
  else none

/-- Range-check a parsed time of day as Python `datetime.time` does. -/
def mkValidTime (h mi s : Nat) : Option (Nat × Nat × Nat) :=
  if h ≤ 23 ∧ mi ≤ 59 ∧ s ≤ 59 then some (h, mi, s) else none

/-- Python `date.fromisoformat`, on the `YYYY-MM-DD` format it accepts. -/
def date_fromisoformat (s : String) : Option PyDate :=
  match s.data with
  | [y1, y2, y3, y4, '-', m1, m2, '-', d1, d2] =>
    match fourDigits y1 y2 y3 y4, twoDigits m1 m2, twoDigits d1 d2 with
    | some y, some m, some d => mkValidDate y m d
    | _, _, _ => none
  | _ => none

/-- Python `datetime.fromisoformat`, modelled on the subset of its input
grammar relevant here: a date `YYYY-MM-DD` optionally followed by a `T`
or space separator and a time `HH:MM` or `HH:MM:SS`.  A date-only string
is accepted (CPython has accepted it since 3.7) and yields midnight.
Fractional seconds and timezone offsets are not modelled. -/
def datetime_fromisoformat (s : String) : Option PyDatetime :=
  match s.data with
  | [y1, y2, y3, y4, '-', m1, m2, '-', d1, d2] =>
    match fourDigits y1 y2 y3 y4, twoDigits m1 m2, twoDigits d1 d2 with
    | some y, some m, some d =>
      match mkValidDate y m d with
      | some dd => some ⟨dd.year, dd.month, dd.day, 0, 0, 0⟩
      | none => none
    | _, _, _ => none
  | [y1, y2, y3, y4, '-', m1, m2, '-', d1, d2, sep, h1, h2, ':', n1, n2] =>
    if sep = 'T' ∨ sep = ' ' then
      match fourDigits y1 y2 y3 y4, twoDigits m1 m2, twoDigits d1 d2,
            twoDigits h1 h2, twoDigits n1 n2 with
      | some y, some m, some d, some h, some mi =>
        match mkValidDate y m d, mkValidTime h mi 0 with
        | some dd, some tt => some ⟨dd.year, dd.month, dd.day, tt.1, tt.2.1, tt.2.2⟩
        | _, _ => none
      | _, _, _, _, _ => none
    else none
  | [y1, y2, y3, y4, '-', m1, m2, '-', d1, d2, sep, h1, h2, ':', n1, n2, ':', s1, s2] =>
    if sep = 'T' ∨ sep = ' ' then
      match fourDigits y1 y2 y3 y4, twoDigits m1 m2, twoDigits d1 d2,
            twoDigits h1 h2, twoDigits n1 n2, twoDigits s1 s2 with
      | some y, some m, some d, some h, some mi, some ss =>
        match mkValidDate y m d, mkValidTime h mi ss with
        | some dd, some tt => some ⟨dd.year, dd.month, dd.day, tt.1, tt.2.1, tt.2.2⟩
        | _, _ => none
      | _, _, _, _, _, _ => none
    else none
  | _ => none

mutual

/-- Python `repr`/`str` of a JSON-decoded value, used by the source's
`str(v)` fall-through for arrays and objects (string escaping inside
nested strings is not modelled; the claims never inspect the text). -/
def pyRepr : JValue → String
  | JValue.null => "None"
  | JValue.bool true => "True"
  | JValue.bool false => "False"
  | JValue.num n => pyStrInt n
  | JValue.str s => "\x27" ++ s ++ "\x27"
  | JValue.arr xs => "[" ++ pyReprList xs ++ "]"
  | JValue.obj kvs => "\x7b" ++ pyReprObj kvs ++ "\x7d"

def pyReprList : List JValue → String
  | [] => ""
  | [x] => pyRepr x
  | x :: y :: xs => pyRepr x ++ ", " ++ pyReprList (y :: xs)

def pyReprObj : List (String × JValue) → String
  | [] => ""
  | [(k, v)] => "\x27" ++ k ++ "\x27: " ++ pyRepr v
  | (k, v) :: kv :: kvs => "\x27" ++ k ++ "\x27: " ++ pyRepr v ++ ", " ++ pyReprObj (kv :: kvs)

end

/-- Python `str()` of a cell value (`excel2json.py` line 110 applies it to
non-`None` header cells). -/
def pyCellStr : PyCell → String
  | PyCell.null => "None"
  | PyCell.bool b => if b then "True" else "False"
  | PyCell.num n => pyStrInt n
  | PyCell.str s => s
  | PyCell.date d => d.isoformat
  | PyCell.dt t => pyDatetimeStr t

/-- Shape test of `json2excel.py` line 58: `len(v) >= 10 and v[4] == "-"
and v[7] == "-"`. -/
def isoShape (s : String) : Bool :=
  decide (10 ≤ s.length) && (s.data.getD 4 ' ' == '-') && (s.data.getD 7 ' ' == '-')

/-- Embedding of `coerce_value` (`json2excel.py` lines 53-74).  The
branches for `datetime`/`date`/`Decimal` inputs are unreachable for
JSON-decoded values and have no counterpart in `JValue`; Python booleans
return through the `isinstance(v, (int, float))` branch (as `bool` is an
`int` subclass) with the same pass-through result modelled here. -/
def coerce_value (v : JValue) : PyCell :=
  match v with
  | JValue.str s =>
    if isoShape s then
      match datetime_fromisoformat s with
      | some t => PyCell.dt t
      | none =>
        match date_fromisoformat s with
        | some d => PyCell.date d
        | none => PyCell.str s
    else PyCell.str s
  | JValue.num n => PyCell.num n
  | JValue.bool b => PyCell.bool b
  | JValue.null => PyCell.null
  | JValue.arr xs => PyCell.str (pyRepr (JValue.arr xs))
  | JValue.obj kvs => PyCell.str (pyRepr (JValue.obj kvs))

/-- Embedding of `json_default` (`excel2json.py` lines 38-43): datetimes
and dates serialise to their ISO string; anything else to `str(obj)`.
The `Decimal → float` branch has no counterpart because `PyCell` carries
no `Decimal` (nothing in the modelled pipeline produces one). -/
def json_default (c : PyCell) : JValue :=
  match c with
  | PyCell.dt t => JValue.str t.isoformat
  | PyCell.date d => JValue.str d.isoformat
  | c => JValue.str (pyCellStr c)

/-- Per-cell behaviour of `json.dump(..., default=json_default)`:
JSON-native cell values pass through, dates and datetimes go through
`json_default`. -/
def serialize_cell (c : PyCell) : JValue :=
  match c with
  | PyCell.str s => JValue.str s
  | PyCell.num n => JValue.num n
  | PyCell.bool b => JValue.bool b
  | PyCell.null => JValue.null
  | c => json_default c

/-- One reconstruct-then-extract pass on a single JSON cell value:
reverse-pipeline coercion followed by forward-pipeline serialisation. -/
def roundtrip_value (v : JValue) : JValue := serialize_cell (coerce_value v)

/-- Claim C1 counterexample: the JSON string `"2024-03-01"` is coerced to a
datetime (CPython's `datetime.fromisoformat` accepts date-only strings, so
the `date` fallback never runs), and `json_default` serialises that
datetime as `"2024-03-01T00:00:00"`, not `"2024-03-01"` — the string is
not a fixed point of one reconstruct-then-extract pass. -/
theorem roundtrip_date_string_not_fixed_point :
    coerce_value (JValue.str "2024-03-01") = PyCell.dt ⟨2024, 3, 1, 0, 0, 0⟩ ∧
    json_default (PyCell.dt ⟨2024, 3, 1, 0, 0, 0⟩) = JValue.str "2024-03-01T00:00:00" ∧
    roundtrip_value (JValue.str "2024-03-01") ≠ JValue.str "2024-03-01" := by
  refine ⟨rfl, rfl, ?_⟩
  intro h
  rw [show roundtrip_value (JValue.str "2024-03-01") = JValue.str "2024-03-01T00:00:00" from rfl] at h
  exact absurd (JValue.str.inj h) (by decide)

/-- Claim C1 (amended): coercing the JSON string `"2024-03-01"` produces
the datetime `2024-03-01 00:00:00`; `json_default` serialises it back as
`"2024-03-01T00:00:00"`, and that string — not the original — is a fixed
point of the reconstruct-then-extract round trip after this one pass. -/
theorem roundtrip_date_string_stabilizes_after_one_pass :
    coerce_value (JValue.str "2024-03-01") = PyCell.dt ⟨2024, 3, 1, 0, 0, 0⟩ ∧
    json_default (PyCell.dt ⟨2024, 3, 1, 0, 0, 0⟩) = JValue.str "2024-03-01T00:00:00" ∧
    roundtrip_value (JValue.str "2024-03-01") = JValue.str "2024-03-01T00:00:00" ∧
    roundtrip_value (JValue.str "2024-03-01T00:00:00") = JValue.str "2024-03-01T00:00:00" :=
  ⟨rfl, rfl, rfl, rfl⟩

/-- Claim C5: `coerce_value` is total (the try/except ladder is modelled by
`Option` results) and behaves as specified on every JSON value: a string of
shape `YYYY-MM-DD...` is parsed first as a datetime, then as a date, and
passes through unchanged when both parses fail; strings of other shapes,
numbers, booleans and null pass through unchanged; arrays and objects are
stringified. -/
theorem coerce_value_behavior :
    ∀ (s : String) (n : Int) (b : Bool) (xs : List JValue) (kvs : List (String × JValue)),
    (isoShape s = false → coerce_value (JValue.str s) = PyCell.str s) ∧
    (isoShape s = true → datetime_fromisoformat s = none → date_fromisoformat s = none →
      coerce_value (JValue.str s) = PyCell.str s) ∧
    (∀ t, isoShape s = true → datetime_fromisoformat s = some t →
      coerce_value (JValue.str s) = PyCell.dt t) ∧
    (∀ d, isoShape s = true → datetime_fromisoformat s = none → date_fromisoformat s = some d →
      coerce_value (JValue.str s) = PyCell.date d) ∧
    coerce_value (JValue.num n) = PyCell.num n ∧
    coerce_value (JValue.bool b) = PyCell.bool b ∧
    coerce_value JValue.null = PyCell.null ∧
    coerce_value (JValue.arr xs) = PyCell.str (pyRepr (JValue.arr xs)) ∧
    coerce_value (JValue.obj kvs) = PyCell.str (pyRepr (JValue.obj kvs)) := by
  intro s n b xs kvs
  refine ⟨?_, ?_, ?_, ?_, rfl, rfl, rfl, rfl, rfl⟩
  · intro h
    simp [coerce_value, h]
  · intro h hdt hd
    simp [coerce_value, h, hdt, hd]
  · intro t h hdt
    simp [coerce_value, h, hdt]
  · intro d h hdt hd
    simp [coerce_value, h, hdt, hd]

/-- Witness for C5: the behaviour clauses of `coerce_value_behavior`
evaluated at concrete inputs. -/
theorem coerce_value_behavior_witness :
    coerce_value (JValue.str "hello") = PyCell.str "hello" ∧
    coerce_value (JValue.str "2024-03-01x!") = PyCell.str "2024-03-01x!" ∧
    coerce_value (JValue.str "2024-03-01") = PyCell.dt ⟨2024, 3, 1, 0, 0, 0⟩ ∧
    coerce_value (JValue.num 7) = PyCell.num 7 ∧
    coerce_value (JValue.arr [JValue.num 1]) = PyCell.str (pyRepr (JValue.arr [JValue.num 1])) := by
  refine ⟨?_, ?_, ?_, ?_, ?_⟩
  · exact (coerce_value_behavior "hello" 0 true [] []).1 (by decide)
  · exact (coerce_value_behavior "2024-03-01x!" 0 true [] []).2.1 (by decide) (by decide) (by decide)
  · exact (coerce_value_behavior "2024-03-01" 0 true [] []).2.2.1 _ (by decide) (by decide)
  · exact (coerce_value_behavior "x" 7 true [] []).2.2.2.2.1
  · exact (coerce_value_behavior "x" 0 true [JValue.num 1] []).2.2.2.2.2.2.2.1

/-- A rectangular merged-cell range, with the field order of openpyxl's
`CellRange.bounds` tuple `(min_col, min_row, max_col, max_row)`. -/
structure MergedRange where
  minCol : Nat
  minRow : Nat
  maxCol : Nat
  maxRow : Nat
deriving DecidableEq

/-- Whether cell `(r, c)` lies inside range `m` — the membership produced by
the nested `range` loops of `build_merged_lookup`. -/
def covers (m : MergedRange) (rc : Nat × Nat) : Bool :=
  decide (m.minRow ≤ rc.1) && decide (rc.1 ≤ m.maxRow) &&
    decide (m.minCol ≤ rc.2) && decide (rc.2 ≤ m.maxCol)

theorem covers_iff (m : MergedRange) (rc : Nat × Nat) :
    covers m rc = true ↔
      m.minRow ≤ rc.1 ∧ rc.1 ≤ m.maxRow ∧ m.minCol ≤ rc.2 ∧ rc.2 ≤ m.maxCol := by
  simp [covers, and_assoc]

/-- Python `range(a, b)` over naturals. -/
def pyRange (a b : Nat) : List Nat := List.range' a (b - a)

theorem mem_pyRange {a b x : Nat} : x ∈ pyRange a b ↔ a ≤ x ∧ x < b := by
  rw [pyRange, List.mem_range'_1]
  omega

/-- The `(r, c)` pairs visited by the two nested loops of
`build_merged_lookup` for one range. -/
def rangeCells (m : MergedRange) : List (Nat × Nat) :=
  (pyRange m.minRow (m.maxRow + 1)).flatMap
    (fun r => (pyRange m.minCol (m.maxCol + 1)).map (fun c => (r, c)))

theorem mem_rangeCells {m : MergedRange} {rc : Nat × Nat} :
    rc ∈ rangeCells m ↔ covers m rc = true := by
  obtain ⟨r, c⟩ := rc
  rw [rangeCells, covers_iff]
  simp only [List.mem_flatMap, List.mem_map]
  constructor
  · rintro ⟨r1, hr1, c1, hc1, heq⟩
    cases heq
    obtain ⟨h1, h2⟩ := mem_pyRange.mp hr1
    obtain ⟨h3, h4⟩ := mem_pyRange.mp hc1
    exact ⟨h1, by omega, h3, by omega⟩
  · rintro ⟨h1, h2, h3, h4⟩
    exact ⟨r, mem_pyRange.mpr ⟨h1, by omega⟩, c, mem_pyRange.mpr ⟨h3, by omega⟩, rfl⟩

/-- The dict `lookup` of `build_merged_lookup`, modelled as a partial map. -/
abbrev MergeLookup : Type := Nat × Nat → Option (Nat × Nat)

/-- One iteration of the outer loop of `build_merged_lookup`: register every
cell of range `m` with anchor `(m.min_row, m.min_col)` (dict assignment, so
a later registration overwrites an earlier one). -/
def insertRange (lu : MergeLookup) (m : MergedRange) : MergeLookup :=
  (rangeCells m).foldl
    (fun acc k => fun q => if q = k then some (m.minRow, m.minCol) else acc q) lu

/-- Embedding of `build_merged_lookup` (`excel2json.py` lines 82-93): the
worksheet's declared merged ranges, in registration order, folded into a
`(row, col) → anchor` lookup. -/
def build_merged_lookup (rs : List MergedRange) : MergeLookup :=
  rs.foldl insertRange (fun _ => none)

/-- Embedding of `get_value_with_merge` (`excel2json.py` lines 95-100): the
worksheet is a total value assignment to coordinates. -/
def get_value_with_merge {α : Type} (ws : Nat × Nat → α) (r c : Nat) (lu : MergeLookup) : α :=
  match lu (r, c) with
  | some a => ws a
  | none => ws (r, c)

/-- The spec's `resolve(sheet, r, c)` contract: `get_value_with_merge` with
the lookup built from the sheet's declared ranges. -/
def resolve {α : Type} (ws : Nat × Nat → α) (rs : List MergedRange) (r c : Nat) : α :=
  get_value_with_merge ws r c (build_merged_lookup rs)

theorem foldl_insert_const (l : List (Nat × Nat)) (v : Nat × Nat) :
    ∀ (lu : MergeLookup) (q : Nat × Nat),
    (l.foldl (fun acc k => fun p => if p = k then some v else acc p) lu) q =
      if q ∈ l then some v else lu q := by
  induction l with
  | nil => intro lu q; simp
  | cons a l ih =>
    intro lu q
    rw [List.foldl_cons, ih]
    by_cases hq : q ∈ l
    · simp [hq]
    · by_cases hqa : q = a <;> simp [hq, hqa]

theorem insertRange_apply (lu : MergeLookup) (m : MergedRange) (q : Nat × Nat) :
    insertRange lu m q = if covers m q then some (m.minRow, m.minCol) else lu q := by
  have h := foldl_insert_const (rangeCells m) (m.minRow, m.minCol) lu q
  unfold insertRange
  rw [h]
  by_cases hc : covers m q = true
  · simp [hc, mem_rangeCells.mpr hc]
  · have hq : q ∉ rangeCells m := fun hmem => hc (mem_rangeCells.mp hmem)
    simp [hq, hc]

/-- Characterisation of `build_merged_lookup`: a cell resolves to the anchor
of the last-registered range that covers it, and to nothing otherwise. -/
theorem build_merged_lookup_eq (rs : List MergedRange) (q : Nat × Nat) :
    build_merged_lookup rs q =
      (rs.reverse.find? (fun m => covers m q)).map (fun m => (m.minRow, m.minCol)) := by
  induction rs using List.reverseRecOn with
  | nil => rfl
  | append_singleton rs m ih =>
    rw [build_merged_lookup, List.foldl_append]
    show insertRange (build_merged_lookup rs) m q = _
    rw [insertRange_apply, List.reverse_append]
    by_cases h : covers m q = true <;> simp [h, ih]

/-- Claim C6: `build_merged_lookup` is a total function of the declared
range list; every covered cell is mapped to the anchor of the
last-registered range covering it (dict assignment makes the last
registration win on overlaps), and a degenerate single-cell range maps
that cell to itself as its own anchor. -/
theorem build_merged_lookup_spec :
    ∀ (rs : List MergedRange) (r c : Nat),
    build_merged_lookup rs (r, c) =
      (rs.reverse.find? (fun m => covers m (r, c))).map (fun m => (m.minRow, m.minCol)) ∧
    build_merged_lookup [⟨c, r, c, r⟩] (r, c) = some (r, c) := by
  intro rs r c
  refine ⟨build_merged_lookup_eq rs (r, c), ?_⟩
  rw [build_merged_lookup_eq]
  have hcov : covers (⟨c, r, c, r⟩ : MergedRange) (r, c) = true := by
    simp [covers_iff]
  simp [hcov]

/-- Pairwise non-overlap of declared merged ranges: no cell lies inside two
distinct registered ranges (true Excel semantics; the spec notes overlaps
only arise from malformed input). -/
def nonoverlapping (rs : List MergedRange) : Prop :=
  ∀ m1 ∈ rs, ∀ m2 ∈ rs, ∀ q : Nat × Nat,
    covers m1 q = true → covers m2 q = true → m1 = m2

theorem resolve_covered {α : Type} (ws : Nat × Nat → α) (rs : List MergedRange)
    (m : MergedRange) (r c : Nat) (hno : nonoverlapping rs) (hm : m ∈ rs)
    (hc : covers m (r, c) = true) :
    resolve ws rs r c = ws (m.minRow, m.minCol) := by
  have hlu := build_merged_lookup_eq rs (r, c)
  have hmem : m ∈ rs.reverse := List.mem_reverse.mpr hm
  have hne : rs.reverse.find? (fun x => covers x (r, c)) ≠ none := by
    intro hnone
    exact absurd hc (List.find?_eq_none.mp hnone m hmem)
  obtain ⟨m0, hm0⟩ := Option.ne_none_iff_exists'.mp hne
  have hm0cov0 := List.find?_some hm0
  have hm0cov : covers m0 (r, c) = true := hm0cov0
  have hm0mem : m0 ∈ rs := List.mem_reverse.mp (List.mem_of_find?_eq_some hm0)
  have : m0 = m := hno m0 hm0mem m hm (r, c) hm0cov hc
  subst this
  unfold resolve get_value_with_merge
  rw [hlu, hm0]
  rfl

/-- Claim C3 (amended): when the declared merged ranges are pairwise
non-overlapping, a cell inside a declared range resolves to that range's
anchor value, a cell inside no range resolves to its own value, and a
covered cell resolves to the same value as its anchor cell. -/
theorem resolve_anchor_of_nonoverlapping :
    ∀ (α : Type) (ws : Nat × Nat → α) (rs : List MergedRange) (m : MergedRange) (r c : Nat),
    nonoverlapping rs → m ∈ rs → covers m (r, c) = true →
    resolve ws rs r c = ws (m.minRow, m.minCol) ∧
    resolve ws rs r c = resolve ws rs m.minRow m.minCol ∧
    (∀ r2 c2 : Nat, (∀ m2 ∈ rs, covers m2 (r2, c2) = false) →
      resolve ws rs r2 c2 = ws (r2, c2)) := by
  intro α ws rs m r c hno hm hc
  have hanchor : covers m (m.minRow, m.minCol) = true := by
    rw [covers_iff] at hc ⊢
    obtain ⟨h1, h2, h3, h4⟩ := hc
    exact ⟨le_rfl, by omega, le_rfl, by omega⟩
  refine ⟨resolve_covered ws rs m r c hno hm hc, ?_, ?_⟩
  · rw [resolve_covered ws rs m r c hno hm hc,
      resolve_covered ws rs m m.minRow m.minCol hno hm hanchor]
  · intro r2 c2 hnone
    have : rs.reverse.find? (fun x => covers x (r2, c2)) = none := by
      rw [List.find?_eq_none]
      intro x hx
      simp [hnone x (List.mem_reverse.mp hx)]
    unfold resolve get_value_with_merge
    rw [build_merged_lookup_eq, this]
    rfl

/-- Witness for C3: a single 2×2 merged range `A1:B2`; cell `(2,2)` resolves
to the anchor value at `(1,1)`, and agrees with the anchor's resolution. -/
theorem resolve_anchor_of_nonoverlapping_witness :
    resolve (fun rc => 10 * rc.1 + rc.2) [⟨1, 1, 2, 2⟩] 2 2 = 11 ∧
    resolve (fun rc => 10 * rc.1 + rc.2) [⟨1, 1, 2, 2⟩] 2 2 =
      resolve (fun rc => 10 * rc.1 + rc.2) [⟨1, 1, 2, 2⟩] 1 1 := by
  have hno : nonoverlapping [⟨1, 1, 2, 2⟩] := by
    intro m1 h1 m2 h2 q _ _
    simp at h1 h2
    rw [h1, h2]
  have h := resolve_anchor_of_nonoverlapping Nat (fun rc => 10 * rc.1 + rc.2)
    [⟨1, 1, 2, 2⟩] ⟨1, 1, 2, 2⟩ 2 2 hno (by simp) (by decide)
  exact ⟨h.1, h.2.1⟩

/-- Claim C3 counterexample: with the overlapping registrations
`[A1:B2, B2:C3]` the cell `(2,2)` lies inside the first range (anchor
`(1,1)`), yet `get_value_with_merge` returns the value at `(2,2)` — the
anchor of the later range — and disagrees with the resolution of the first
range's anchor, refuting the claim for overlapping declared ranges. -/
theorem resolve_overlap_first_range_anchor_fails :
    covers ⟨1, 1, 2, 2⟩ (2, 2) = true ∧
    (⟨1, 1, 2, 2⟩ : MergedRange) ∈ [(⟨1, 1, 2, 2⟩ : MergedRange), ⟨2, 2, 3, 3⟩] ∧
    resolve (fun rc => 10 * rc.1 + rc.2) [⟨1, 1, 2, 2⟩, ⟨2, 2, 3, 3⟩] 2 2 = 22 ∧
    resolve (fun rc => 10 * rc.1 + rc.2) [⟨1, 1, 2, 2⟩, ⟨2, 2, 3, 3⟩] 2 2 ≠
      (fun rc : Nat × Nat => 10 * rc.1 + rc.2) (1, 1) ∧
    resolve (fun rc => 10 * rc.1 + rc.2) [⟨1, 1, 2, 2⟩, ⟨2, 2, 3, 3⟩] 2 2 ≠
      resolve (fun rc => 10 * rc.1 + rc.2) [⟨1, 1, 2, 2⟩, ⟨2, 2, 3, 3⟩] 1 1 := by
  refine ⟨by decide, by simp, by decide, by decide, by decide⟩

/-- Line 110 of `excel2json.py`: `base = str(h) if h is not None else ""`. -/
def headerBase (h : PyCell) : String :=
  match h with
  | PyCell.null => ""
  | h => pyCellStr h

/-- One iteration of the loop in `unique_headers` (`excel2json.py` lines
109-118): the state is the `seen` dict (a count per base name, `0` meaning
absent) together with the output list `out`. -/
def uhStep (st : (String → Nat) × List String) (h : PyCell) : (String → Nat) × List String :=
  let base := headerBase h
  if st.1 base = 0 then
    (fun b => if b = base then 1 else st.1 b, st.2 ++ [base])
  else
    (fun b => if b = base then st.1 base + 1 else st.1 b,
     st.2 ++ [base ++ "_" ++ pyStrNat (st.1 base + 1)])

/-- Embedding of `unique_headers` (`excel2json.py` lines 106-119). -/
def unique_headers (headers : List PyCell) : List String :=
  (headers.foldl uhStep (fun _ => 0, [])).2

/-- Closed form of the name emitted at position `i`: the stringified base,
suffixed with its occurrence count among the first `i + 1` bases when that
count exceeds one. -/
def uhName (bs : List String) (i : Nat) : String :=
  if (bs.take (i + 1)).count (bs.getD i "") ≤ 1 then bs.getD i ""
  else bs.getD i "" ++ "_" ++ pyStrNat ((bs.take (i + 1)).count (bs.getD i ""))

/-- Positional specification of `unique_headers` over stringified bases. -/
def uniqueHeadersSpec (bs : List String) : List String :=
  (List.range bs.length).map (uhName bs)

theorem uhName_append_lt (bs : List String) (b : String) (i : Nat) (h : i < bs.length) :
    uhName (bs ++ [b]) i = uhName bs i := by
  unfold uhName
  rw [List.getD_append _ _ _ _ h, List.take_append_eq_append_take,
    Nat.sub_eq_zero_of_le (by omega), List.take_zero, List.append_nil]

theorem uhName_append_self (bs : List String) (b : String) :
    uhName (bs ++ [b]) bs.length =
      if bs.count b + 1 ≤ 1 then b
      else b ++ "_" ++ pyStrNat (bs.count b + 1) := by
  unfold uhName
  have hg : (bs ++ [b]).getD bs.length "" = b := by
    rw [List.getD_append_right _ _ _ _ le_rfl]
    simp
  have ht : (bs ++ [b]).take (bs.length + 1) = bs ++ [b] :=
    List.take_of_length_le (by simp)
  rw [hg, ht, List.count_append]
  simp

theorem uniqueHeadersSpec_append (bs : List String) (b : String) :
    uniqueHeadersSpec (bs ++ [b]) =
      uniqueHeadersSpec bs ++ [uhName (bs ++ [b]) bs.length] := by
  unfold uniqueHeadersSpec
  rw [List.length_append, List.length_singleton, List.range_succ, List.map_append]
  congr 1
  exact List.map_congr_left (fun i hi => uhName_append_lt bs b i (List.mem_range.mp hi))

theorem uhStep_fst_eq (st : (String → Nat) × List String) (h : PyCell) (b : String) :
    (uhStep st h).1 b =
      if b = headerBase h then
        (if st.1 (headerBase h) = 0 then 1 else st.1 (headerBase h) + 1)
      else st.1 b := by
  unfold uhStep
  by_cases hz : st.1 (headerBase h) = 0 <;> by_cases hb : b = headerBase h <;>
    simp [hz, hb]

theorem uhStep_snd_eq (st : (String → Nat) × List String) (h : PyCell) :
    (uhStep st h).2 = st.2 ++
      [if st.1 (headerBase h) = 0 then headerBase h
       else headerBase h ++ "_" ++ pyStrNat (st.1 (headerBase h) + 1)] := by
  unfold uhStep
  by_cases hz : st.1 (headerBase h) = 0 <;> simp [hz]

theorem uh_fold_invariant (hs : List PyCell) :
    (∀ b, (hs.foldl uhStep (fun _ => 0, [])).1 b = (hs.map headerBase).count b) ∧
    (hs.foldl uhStep (fun _ => 0, [])).2 = uniqueHeadersSpec (hs.map headerBase) := by
  induction hs using List.reverseRecOn with
  | nil =>
    constructor
    · intro b
      rfl
    · rfl
  | append_singleton hs h ih =>
    obtain ⟨ih1, ih2⟩ := ih
    rw [List.foldl_append, List.foldl_cons, List.foldl_nil, List.map_append,
      List.map_singleton]
    constructor
    · intro b
      rw [uhStep_fst_eq, List.count_append]
      by_cases hb : b = headerBase h
      · subst hb
        rw [ih1]
        have h1 : List.count (headerBase h) [headerBase h] = 1 := by simp
        rw [h1]
        by_cases hz : List.count (headerBase h) (hs.map headerBase) = 0 <;> simp [hz]
      · have hne : (headerBase h == b) = false :=
          beq_eq_false_iff_ne.mpr (fun hc => hb hc.symm)
        rw [List.count_singleton, hne, if_neg hb, ih1]
        simp
    · rw [uhStep_snd_eq, ih2, uniqueHeadersSpec_append, uhName_append_self, ih1]
      by_cases hz : List.count (headerBase h) (hs.map headerBase) = 0
      · simp [hz]
      · have hgt : ¬ (List.count (headerBase h) (hs.map headerBase) + 1 ≤ 1) := by omega
        simp [hz, hgt]

/-- The output of `unique_headers` is the positional specification applied
to the stringified bases. -/
theorem unique_headers_eq_spec (hs : List PyCell) :
    unique_headers hs = uniqueHeadersSpec (hs.map headerBase) :=
  (uh_fold_invariant hs).2

/-- Claim C9: `unique_headers` preserves length and positional order, its
output is fully determined by the stringified bases (`str(h)` for
non-`None` headers, `""` for `None`), and a second `None`/blank header is
renamed `"_2"`. -/
theorem unique_headers_characterization :
    ∀ hs : List PyCell,
    unique_headers hs = uniqueHeadersSpec (hs.map headerBase) ∧
    (unique_headers hs).length = hs.length ∧
    unique_headers [PyCell.null, PyCell.null] = ["", "_2"] := by
  intro hs
  refine ⟨unique_headers_eq_spec hs, ?_, by decide⟩
  rw [unique_headers_eq_spec, uniqueHeadersSpec]
  simp

theorem append_underscore_cancel :
    ∀ (a b s t : List Char), '_' ∉ s → '_' ∉ t →
    a ++ '_' :: s = b ++ '_' :: t → a = b ∧ s = t := by
  intro a
  induction a with
  | nil =>
    intro b s t hs ht heq
    cases b with
    | nil => simpa using heq
    | cons c bs =>
      rw [List.nil_append, List.cons_append] at heq
      obtain ⟨hc, hrest⟩ := List.cons.inj heq
      exfalso
      apply hs
      rw [hrest]
      exact List.mem_append.mpr (Or.inr (List.mem_cons_self _ _))
  | cons c as ih =>
    intro b s t hs ht heq
    cases b with
    | nil =>
      rw [List.nil_append, List.cons_append] at heq
      obtain ⟨hc, hrest⟩ := List.cons.inj heq
      exfalso
      apply ht
      rw [← hrest]
      exact List.mem_append.mpr (Or.inr (List.mem_cons_self _ _))
    | cons d bs =>
      rw [List.cons_append, List.cons_append] at heq
      obtain ⟨hcd, hrest⟩ := List.cons.inj heq
      obtain ⟨h1, h2⟩ := ih bs s t hs ht hrest
      exact ⟨by rw [hcd, h1], h2⟩

theorem suffixed_name_cancel (a b : String) (m n : Nat)
    (heq : a ++ "_" ++ pyStrNat m = b ++ "_" ++ pyStrNat n) : a = b ∧ m = n := by
  have hdata := congrArg String.data heq
  rw [String.data_append, String.data_append, String.data_append, String.data_append] at hdata
  have hd2 : a.data ++ '_' :: (pyStrNat m).data = b.data ++ '_' :: (pyStrNat n).data := by
    simpa using hdata
  obtain ⟨h1, h2⟩ := append_underscore_cancel a.data b.data (pyStrNat m).data
    (pyStrNat n).data (pyStrNat_no_underscore m) (pyStrNat_no_underscore n) hd2
  exact ⟨String.ext h1, pyStrNat_injective (String.ext h2)⟩

theorem self_ne_suffixed (b : String) (k : Nat) : b ≠ b ++ "_" ++ pyStrNat k := by
  intro h
  have hl := congrArg String.length h
  rw [String.length_append, String.length_append] at hl
  have h1 : ("_" : String).length = 1 := rfl
  have hp := pyStrNat_length_pos k
  omega

theorem take_succ_getD (bs : List String) (i : Nat) (hi : i < bs.length) :
    bs.take (i + 1) = bs.take i ++ [bs.getD i ""] := by
  rw [List.take_succ, List.getElem?_eq_getElem hi, List.getD_eq_getElem _ _ hi]
  rfl

theorem uhName_count_succ (bs : List String) (i : Nat) (hi : i < bs.length) :
    (bs.take (i + 1)).count (bs.getD i "") =
      (bs.take i).count (bs.getD i "") + 1 := by
  rw [take_succ_getD bs i hi, List.count_append]
  simp

theorem uhName_ne_of_lt (bs : List String)
    (H : ∀ b1 ∈ bs, ∀ b2 ∈ bs, ∀ k, 2 ≤ k → b1 ≠ b2 ++ "_" ++ pyStrNat k)
    (i j : Nat) (hij : i < j) (hj : j < bs.length) :
    uhName bs i ≠ uhName bs j := by
  have hi : i < bs.length := lt_trans hij hj
  have hbim : bs.getD i "" ∈ bs := by
    rw [List.getD_eq_getElem _ _ hi]
    exact List.getElem_mem _
  have hbjm : bs.getD j "" ∈ bs := by
    rw [List.getD_eq_getElem _ _ hj]
    exact List.getElem_mem _
  have hki := uhName_count_succ bs i hi
  have hkj := uhName_count_succ bs j hj
  unfold uhName
  by_cases hbb : bs.getD i "" = bs.getD j ""
  · have hmono : (bs.take (i + 1)).count (bs.getD i "") ≤
        (bs.take j).count (bs.getD i "") := by
      have hsub : List.Sublist (bs.take (i + 1)) (bs.take j) := by
        have he : bs.take (i + 1) = (bs.take j).take (i + 1) := by
          rw [List.take_take]
          congr 1
          omega
        rw [he]
        exact List.take_sublist _ _
      exact hsub.count_le _
    have hlt : (bs.take (i + 1)).count (bs.getD i "") <
        (bs.take (j + 1)).count (bs.getD j "") := by
      rw [hkj, ← hbb]
      omega
    have hkj2 : ¬ ((bs.take (j + 1)).count (bs.getD j "") ≤ 1) := by
      rw [hkj, ← hbb]
      have : 1 ≤ (bs.take (i + 1)).count (bs.getD i "") := by rw [hki]; omega
      omega
    rw [if_neg hkj2]
    by_cases hki2 : (bs.take (i + 1)).count (bs.getD i "") ≤ 1
    · rw [if_pos hki2, hbb]
      exact self_ne_suffixed _ _
    · rw [if_neg hki2]
      intro heq
      rw [hbb] at heq
      obtain ⟨-, hcnt⟩ := suffixed_name_cancel _ _ _ _ heq
      rw [hbb] at hlt
      omega
  · by_cases hki2 : (bs.take (i + 1)).count (bs.getD i "") ≤ 1 <;>
      by_cases hkj2 : (bs.take (j + 1)).count (bs.getD j "") ≤ 1
    · rw [if_pos hki2, if_pos hkj2]
      exact hbb
    · rw [if_pos hki2, if_neg hkj2]
      have : 2 ≤ (bs.take (j + 1)).count (bs.getD j "") := by omega
      exact H _ hbim _ hbjm _ this
    · rw [if_neg hki2, if_pos hkj2]
      have : 2 ≤ (bs.take (i + 1)).count (bs.getD i "") := by omega
      exact (H _ hbjm _ hbim _ this).symm
    · rw [if_neg hki2, if_neg hkj2]
      intro heq
      obtain ⟨hb, -⟩ := suffixed_name_cancel _ _ _ _ heq
      exact hbb hb

/-- Claim C2 (amended): `unique_headers` keeps the first occurrence of a
stringified name as-is and renames the k-th occurrence to `name_k`
(suffix starting at 2); the result has no duplicates provided no
stringified input header itself has the form `base_k` of another header's
generated name (`k ≥ 2`).  Without that proviso the output can contain
duplicates, so `len(set(headers)) == len(headers)` does not hold
unconditionally. -/
theorem unique_headers_nodup_of_no_suffix_collision :
    ∀ hs : List PyCell,
    (∀ b1 ∈ hs.map headerBase, ∀ b2 ∈ hs.map headerBase, ∀ k, 2 ≤ k →
      b1 ≠ b2 ++ "_" ++ pyStrNat k) →
    (unique_headers hs).Nodup ∧
    unique_headers hs = uniqueHeadersSpec (hs.map headerBase) := by
  intro hs H
  refine ⟨?_, unique_headers_eq_spec hs⟩
  rw [unique_headers_eq_spec, uniqueHeadersSpec]
  apply List.Nodup.map_on ?_ (List.nodup_range _)
  intro x hx y hy hxy
  by_contra hne
  rcases Nat.lt_or_ge x y with h | h
  · exact uhName_ne_of_lt _ H x y h (List.mem_range.mp hy) hxy
  · have hyx : y < x := by omega
    exact uhName_ne_of_lt _ H y x hyx (List.mem_range.mp hx) hxy.symm

/-- Claim C2 counterexample: the input headers `["a", "a", "a_2"]` produce
`["a", "a_2", "a_2"]` — the generated rename of the second `"a"` collides
with the raw third header, so the output has a duplicate and
`len(set(headers)) == len(headers)` fails. -/
theorem unique_headers_duplicate_example :
    unique_headers [PyCell.str "a", PyCell.str "a", PyCell.str "a_2"] =
      ["a", "a_2", "a_2"] ∧
    ¬ (unique_headers [PyCell.str "a", PyCell.str "a", PyCell.str "a_2"]).Nodup := by
  exact ⟨by decide, by decide⟩

/-- Witness for C2: a collision-free header list satisfies the proviso and
yields a duplicate-free output. -/
theorem unique_headers_nodup_witness :
    (unique_headers [PyCell.str "a", PyCell.str "b", PyCell.str "a"]).Nodup := by
  apply (unique_headers_nodup_of_no_suffix_collision
    [PyCell.str "a", PyCell.str "b", PyCell.str "a"] ?_).1
  have hmap : [PyCell.str "a", PyCell.str "b", PyCell.str "a"].map headerBase =
      ["a", "b", "a"] := rfl
  rw [hmap]
  intro b1 h1 b2 h2 k hk heq
  simp only [List.mem_cons, List.not_mem_nil, or_false] at h1 h2
  have h1l : b1.length = 1 := by
    rcases h1 with h | h | h <;> subst h <;> rfl
  have h2l : b2.length = 1 := by
    rcases h2 with h | h | h <;> subst h <;> rfl
  have hl := congrArg String.length heq
  rw [String.length_append, String.length_append] at hl
  have hu : ("_" : String).length = 1 := rfl
  have hp := pyStrNat_length_pos k
  omega

/-- Candidate names tried by the while loop of `ensure_unique_table_name`:
the base itself (`i = 1`), then `base_2`, `base_3`, ... -/
def nameCandidate (base : String) (i : Nat) : String :=
  if i = 1 then base else base ++ "_" ++ pyStrNat i

/-- The `while name in existing` loop of `ensure_unique_table_name`, with
an explicit fuel bound; `existing.length + 1` iterations always suffice
because the candidates are pairwise distinct. -/
def findFreeName (existing : List String) (base : String) : Nat → Nat → Nat
  | 0, i => i
  | fuel + 1, i =>
    if nameCandidate base i ∈ existing then findFreeName existing base fuel (i + 1)
    else i

/-- Embedding of `ensure_unique_table_name` (`json2excel.py` lines 80-88).
The Python `set` is modelled by a list with membership; the function
returns the chosen name together with the updated set
(`existing.add(name)`). -/
def ensure_unique_table_name (existing : List String) (desired : String) : String × List String :=
  let base := if desired = "" then "Table" else desired
  let i := findFreeName existing base (existing.length + 1) 1
  let name := nameCandidate base i
  (name, name :: existing)

theorem nameCandidate_inj (base : String) (i j : Nat)
    (h : nameCandidate base i = nameCandidate base j) : i = j := by
  unfold nameCandidate at h
  by_cases h1 : i = 1 <;> by_cases h2 : j = 1
  · omega
  · rw [if_pos h1, if_neg h2] at h
    exact absurd h (self_ne_suffixed base j)
  · rw [if_neg h1, if_pos h2] at h
    exact absurd h.symm (self_ne_suffixed base i)
  · rw [if_neg h1, if_neg h2] at h
    exact (suffixed_name_cancel _ _ _ _ h).2

theorem exists_free_candidate (existing : List String) (base : String) :
    ∃ k, k ≤ existing.length ∧ nameCandidate base (1 + k) ∉ existing := by
  by_contra hall
  push_neg at hall
  have hsub : (Finset.range (existing.length + 1)).image
      (fun k => nameCandidate base (1 + k)) ⊆ existing.toFinset := by
    intro x hx
    rw [Finset.mem_image] at hx
    obtain ⟨k, hk, hxe⟩ := hx
    rw [← hxe]
    exact List.mem_toFinset.mpr (hall k (by
      have := Finset.mem_range.mp hk
      omega))
  have hinj : Set.InjOn (fun k => nameCandidate base (1 + k))
      (Finset.range (existing.length + 1)) := by
    intro x _ y _ hxy
    have := nameCandidate_inj base (1 + x) (1 + y) hxy
    omega
  have hcard := Finset.card_image_of_injOn hinj
  have hle := Finset.card_le_card hsub
  rw [hcard, Finset.card_range] at hle
  have htf := existing.toFinset_card_le
  omega

theorem findFreeName_spec (existing : List String) (base : String) :
    ∀ (fuel i : Nat),
    (∃ k, k ≤ fuel ∧ nameCandidate base (i + k) ∉ existing) →
    nameCandidate base (findFreeName existing base fuel i) ∉ existing ∧
    i ≤ findFreeName existing base fuel i ∧
    ∀ m, i ≤ m → m < findFreeName existing base fuel i →
      nameCandidate base m ∈ existing := by
  intro fuel
  induction fuel with
  | zero =>
    intro i hex
    obtain ⟨k, hk, hfree⟩ := hex
    interval_cases k
    refine ⟨hfree, le_rfl, ?_⟩
    intro m hm1 hm2
    simp only [findFreeName] at hm2
    omega
  | succ f ih =>
    intro i hex
    by_cases hmem : nameCandidate base i ∈ existing
    · have hres : findFreeName existing base (f + 1) i =
          findFreeName existing base f (i + 1) := by
        simp only [findFreeName, if_pos hmem]
      obtain ⟨k, hk, hfree⟩ := hex
      have hk0 : k ≠ 0 := by
        intro h0
        rw [h0, Nat.add_zero] at hfree
        exact hfree hmem
      have hex2 : ∃ k2, k2 ≤ f ∧ nameCandidate base (i + 1 + k2) ∉ existing := by
        refine ⟨k - 1, by omega, ?_⟩
        have : i + 1 + (k - 1) = i + k := by omega
        rw [this]
        exact hfree
      obtain ⟨ih1, ih2, ih3⟩ := ih (i + 1) hex2
      rw [hres]
      refine ⟨ih1, by omega, ?_⟩
      intro m hm1 hm2
      by_cases hmi : m = i
      · rw [hmi]
        exact hmem
      · exact ih3 m (by omega) hm2
    · have hres : findFreeName existing base (f + 1) i = i := by
        simp only [findFreeName, if_neg hmem]
      rw [hres]
      exact ⟨hmem, le_rfl, fun m hm1 hm2 => absurd (by omega : i < i) (lt_irrefl i)⟩

/-- Claim C7 (amended): `ensure_unique_table_name` first replaces an empty
desired name by `"Table"`; it then returns that base unchanged when it
does not collide with the registered names, and otherwise the base with
the smallest free suffix `_2`, `_3`, ...; the returned name is never in
the previously registered set, and the set is extended with it. -/
theorem ensure_unique_table_name_spec :
    ∀ (existing : List String) (desired : String),
    (ensure_unique_table_name existing desired).1 ∉ existing ∧
    ((if desired = "" then "Table" else desired) ∉ existing →
      (ensure_unique_table_name existing desired).1 =
        (if desired = "" then "Table" else desired)) ∧
    (∃ i, 1 ≤ i ∧
      (ensure_unique_table_name existing desired).1 =
        nameCandidate (if desired = "" then "Table" else desired) i ∧
      ∀ j, 1 ≤ j → j < i →
        nameCandidate (if desired = "" then "Table" else desired) j ∈ existing) ∧
    (ensure_unique_table_name existing desired).2 =
      (ensure_unique_table_name existing desired).1 :: existing := by
  intro existing desired
  set base := if desired = "" then "Table" else desired with hbase
  have hfst : (ensure_unique_table_name existing desired).1 =
      nameCandidate base (findFreeName existing base (existing.length + 1) 1) := rfl
  have hsnd : (ensure_unique_table_name existing desired).2 =
      (ensure_unique_table_name existing desired).1 :: existing := rfl
  have hex : ∃ k, k ≤ existing.length + 1 ∧ nameCandidate base (1 + k) ∉ existing := by
    obtain ⟨k, hk, hfree⟩ := exists_free_candidate existing base
    exact ⟨k, by omega, hfree⟩
  obtain ⟨hfree, hge, hmin⟩ := findFreeName_spec existing base (existing.length + 1) 1 hex
  refine ⟨by rw [hfst]; exact hfree, ?_, ?_, hsnd⟩
  · intro hb
    have h1 : findFreeName existing base (existing.length + 1) 1 = 1 := by
      by_contra hne
      have hlt : 1 < findFreeName existing base (existing.length + 1) 1 := by omega
      have := hmin 1 le_rfl hlt
      rw [show nameCandidate base 1 = base from if_pos rfl] at this
      exact hb this
    rw [hfst, h1]
    exact if_pos rfl
  · exact ⟨findFreeName existing base (existing.length + 1) 1, hge, hfst, hmin⟩

/-- Claim C7 counterexample: for the empty desired name — which never
collides with a registered name — the function does not return the desired
name itself but substitutes `"Table"`. -/
theorem ensure_unique_table_name_empty_desired :
    (ensure_unique_table_name [] "").1 = "Table" ∧
    ("" : String) ∉ ([] : List String) ∧
    (ensure_unique_table_name [] "").1 ≠ "" := by
  exact ⟨rfl, by simp, by decide⟩

/-- Witness for C7: with `["A"]` registered, desiring `"A"` yields a fresh
name not in the set; with `["B"]` registered, the non-colliding desired
name `"A"` is returned unchanged. -/
theorem ensure_unique_table_name_spec_witness :
    (ensure_unique_table_name ["A"] "A").1 ∉ (["A"] : List String) ∧
    (ensure_unique_table_name ["B"] "A").1 = "A" := by
  constructor
  · exact (ensure_unique_table_name_spec ["A"] "A").1
  · have h := (ensure_unique_table_name_spec ["B"] "A").2.1
    have hbase : (if ("A" : String) = "" then "Table" else "A") = "A" :=
      if_neg (by decide)
    have hni : (if ("A" : String) = "" then "Table" else "A") ∉ (["B"] : List String) := by
      rw [hbase]
      decide
    have h2 := h hni
    rw [hbase] at h2
    exact h2

/-- One entry of a `merged_cells` list in the JSON: `m.get("range")` is
`none` when the key is missing; other falsy range values are subsumed by
the empty string. -/
structure MergeEntry where
  range : Option String

/-- One iteration of the loop in `write_merged_ranges` (`json2excel.py`
lines 93-101): a missing or empty range is skipped (`continue`), and the
`try/except` around `ws.merge_cells(r)` is modelled by an `Option`-valued
apply function — a `none` (exception) leaves the sheet unchanged and the
loop continues. -/
def wmStep {σ : Type} (applyMerge : σ → String → Option σ) (ws : σ) (m : MergeEntry) : σ :=
  match m.range with
  | none => ws
  | some r =>
    if r = "" then ws
    else
      match applyMerge ws r with
      | some ws2 => ws2
      | none => ws

/-- Embedding of `write_merged_ranges` (`json2excel.py` lines 90-101); the
early `if not merges: return` is the same as folding the empty list. -/
def write_merged_ranges {σ : Type} (applyMerge : σ → String → Option σ)
    (ws : σ) (merges : List MergeEntry) : σ :=
  merges.foldl (wmStep applyMerge) ws

/-- Claim C10: `write_merged_ranges` is total; an entry with a missing or
empty `"range"` is skipped leaving the sheet unchanged; a failing merge
application leaves the sheet unchanged for that entry; and processing a
list always continues through every remaining entry (the fold
decomposes over concatenation). -/
theorem write_merged_ranges_spec :
    ∀ (σ : Type) (applyMerge : σ → String → Option σ) (ws : σ)
      (ms ms2 : List MergeEntry) (m : MergeEntry),
    write_merged_ranges applyMerge ws (ms ++ ms2) =
      write_merged_ranges applyMerge (write_merged_ranges applyMerge ws ms) ms2 ∧
    (m.range = none → wmStep applyMerge ws m = ws) ∧
    (m.range = some "" → wmStep applyMerge ws m = ws) ∧
    (∀ r, m.range = some r → applyMerge ws r = none → wmStep applyMerge ws m = ws) := by
  intro σ applyMerge ws ms ms2 m
  refine ⟨List.foldl_append _ _ _ _, ?_, ?_, ?_⟩
  · intro h
    rw [wmStep, h]
  · intro h
    rw [wmStep, h]
    simp
  · intro r hr happ
    rw [wmStep, hr]
    by_cases he : r = ""
    · simp [he]
    · simp [he, happ]

/-- Witness for C10: a concrete sheet state (a counter), an apply function
that fails on `"bad"`, and entries exercising the skip and failure paths. -/
theorem write_merged_ranges_spec_witness :
    wmStep (fun (n : Nat) r => if r = "ok" then some (n + 1) else none) 5 ⟨none⟩ = 5 ∧
    wmStep (fun (n : Nat) r => if r = "ok" then some (n + 1) else none) 5 ⟨some ""⟩ = 5 ∧
    wmStep (fun (n : Nat) r => if r = "ok" then some (n + 1) else none) 5 ⟨some "bad"⟩ = 5 ∧
    write_merged_ranges (fun (n : Nat) r => if r = "ok" then some (n + 1) else none) 0
      ([⟨some "ok"⟩, ⟨none⟩] ++ [⟨some "bad"⟩, ⟨some "ok"⟩]) =
      write_merged_ranges (fun (n : Nat) r => if r = "ok" then some (n + 1) else none)
        (write_merged_ranges (fun (n : Nat) r => if r = "ok" then some (n + 1) else none) 0
          [⟨some "ok"⟩, ⟨none⟩]) [⟨some "bad"⟩, ⟨some "ok"⟩] := by
  have h := write_merged_ranges_spec Nat
    (fun (n : Nat) r => if r = "ok" then some (n + 1) else none) 5
    [(⟨some "ok"⟩ : MergeEntry), ⟨none⟩] [⟨some "bad"⟩, ⟨some "ok"⟩] ⟨none⟩
  have h2 := write_merged_ranges_spec Nat
    (fun (n : Nat) r => if r = "ok" then some (n + 1) else none) 5
    [(⟨some "ok"⟩ : MergeEntry), ⟨none⟩] [⟨some "bad"⟩, ⟨some "ok"⟩] ⟨some ""⟩
  have h3 := write_merged_ranges_spec Nat
    (fun (n : Nat) r => if r = "ok" then some (n + 1) else none) 5
    [(⟨some "ok"⟩ : MergeEntry), ⟨none⟩] [⟨some "bad"⟩, ⟨some "ok"⟩] ⟨some "bad"⟩
  have h4 := write_merged_ranges_spec Nat
    (fun (n : Nat) r => if r = "ok" then some (n + 1) else none) 0
    [(⟨some "ok"⟩ : MergeEntry), ⟨none⟩] [⟨some "bad"⟩, ⟨some "ok"⟩] ⟨none⟩
  exact ⟨h.2.1 rfl, h2.2.2.1 rfl, h3.2.2.2 "bad" rfl (by decide), h4.1⟩

/-- Parsed `range_boundaries` of a table's `ref` string, in openpyxl's
`(min_col, min_row, max_col, max_row)` tuple order. -/
structure RefBounds where
  minCol : Nat
  minRow : Nat
  maxCol : Nat
  maxRow : Nat

/-- One JSON row of a table: a JSON object (keys unique, insertion order
kept), so `len(r.keys())` is the list length. -/
abbrev TableRow := List (String × JValue)

/-- One entry of `excel_tables`, with the fields `write_tables` reads;
missing keys are `none` (`t.get(...)`), and `ref` is carried as parsed
bounds since `range_boundaries` is applied to it immediately.  The
trailing informational merge list (lines 172-182) is not modelled: it only
calls `ws.merge_cells` and touches no cell write, bound or name computed
here. -/
structure TableJson where
  name : Option String
  ref : Option RefBounds
  headers : Option (List JValue)
  rows : Option (List TableRow)

/-- A worksheet being reconstructed: the sequence of cell writes.  Header
cells are written raw (`Sum.inl`, line 140), data cells coerced
(`Sum.inr`, line 149). -/
structure Ws where
  cells : List ((Nat × Nat) × Sum JValue PyCell)

/-- `ws.cell(row=r, column=c, value=v)`: touching a cell records it. -/
def Ws.setCell (ws : Ws) (rc : Nat × Nat) (v : Sum JValue PyCell) : Ws :=
  ⟨ws.cells ++ [(rc, v)]⟩

/-- openpyxl's `ws.max_row`: 1 for an empty sheet, else the maximal row
index that has been touched. -/
def Ws.maxRow (ws : Ws) : Nat :=
  ws.cells.foldl (fun a cc => max a cc.1.1) 1

/-- Line 135 of `json2excel.py`:
`n_cols = max(len(headers), max((len(r.keys()) for r in rows), default=0))`. -/
def tableNCols (t : TableJson) : Nat :=
  max (t.headers.getD []).length
    ((t.rows.getD []).foldl (fun a r => max a r.length) 0)

/-- Lines 138 and 146: `headers[c] if c < len(headers) else f"Col_{c+1}"`. -/
def headerAt (headers : List JValue) (c : Nat) : JValue :=
  headers.getD c (JValue.str ("Col_" ++ pyStrNat (c + 1)))

/-- `row_obj.get(key, None)`; JSON object keys are strings, so a non-string
key never matches and yields the `None` default. -/
def rowGet (row : TableRow) (key : JValue) : JValue :=
  match key with
  | JValue.str s => ((row.find? (fun kv => kv.1 == s)).map (fun kv => kv.2)).getD JValue.null
  | _ => JValue.null

/-- Lines 126-133: the start position of one table — the `ref`'s top-left
bounds when a ref is present, otherwise column 1 and row `max_row + 2`
when `max_row > 1`, else row 1. -/
def tableStart (ws : Ws) (ref : Option RefBounds) : Nat × Nat :=
  match ref with
  | none => (if ws.maxRow > 1 then ws.maxRow + 2 else 1, 1)
  | some b => (b.minRow, b.minCol)

/-- The per-table output of `write_tables`: the registered display name and
the bounds of the computed `table_ref` string
`cell_addr(start_row, start_col) : cell_addr(end_row, end_col)`
(lines 153-155). -/
structure TableOut where
  displayName : String
  startRow : Nat
  startCol : Nat
  endRow : Nat
  endCol : Nat

def dummyOut : TableOut := ⟨"", 0, 0, 0, 0⟩

def dummyTable : TableJson := ⟨none, none, none, none⟩

/-- The body of the `for t_idx, t in enumerate(tables_json)` loop of
`write_tables` (`json2excel.py` lines 122-170): compute the start, write
the header row, write the data rows (values coerced), compute the end
bounds `end_row = start_row + len(rows)`, `end_col = start_col + n_cols - 1`,
and register the unique display name
(`t.get("name") or f"Table{t_idx+1}"`).  Table style and `add_table`
affect no state modelled by `Ws`. -/
def write_tables_step (ws : Ws) (existing : List String) (tIdx : Nat) (t : TableJson) :
    Ws × List String × TableOut :=
  let headers := t.headers.getD []
  let rows := t.rows.getD []
  let start := tableStart ws t.ref
  let nCols := tableNCols t
  let ws1 := (List.range nCols).foldl
    (fun w c => w.setCell (start.1, start.2 + c) (Sum.inl (headerAt headers c))) ws
  let ws2 := rows.enum.foldl
    (fun w ir => (List.range nCols).foldl
      (fun w2 c => w2.setCell (start.1 + ir.1 + 1, start.2 + c)
        (Sum.inr (coerce_value (rowGet ir.2 (headerAt headers c))))) w) ws1
  let desired := match t.name with
    | some s => if s = "" then "Table" ++ pyStrNat (tIdx + 1) else s
    | none => "Table" ++ pyStrNat (tIdx + 1)
  let en := ensure_unique_table_name existing desired
  (ws2, en.2, ⟨en.1, start.1, start.2, start.1 + rows.length, start.2 + nCols - 1⟩)

/-- The enumerate loop of `write_tables` over the whole table list,
threading the worksheet and the registered-name set and collecting the
per-table outputs in order. -/
def write_tables_go (ws : Ws) (existing : List String) (tIdx : Nat) :
    List TableJson → Ws × List String × List TableOut
  | [] => (ws, existing, [])
  | t :: ts =>
    let r1 := write_tables_step ws existing tIdx t
    let r2 := write_tables_go r1.1 r1.2.1 (tIdx + 1) ts
    (r2.1, r2.2.1, r1.2.2 :: r2.2.2)

/-- Embedding of `write_tables` (`json2excel.py` lines 115-170).  The
initial name set (`{t.displayName for t in ws._tables}`, line 120) is
passed by the caller; it is empty for the fresh sheets created by
`reconstruct_workbook`. -/
def write_tables (ws : Ws) (existing : List String) (ts : List TableJson) :
    Ws × List String × List TableOut :=
  write_tables_go ws existing 0 ts

theorem write_tables_go_length (ts : List TableJson) :
    ∀ (ws : Ws) (existing : List String) (tIdx : Nat),
    ((write_tables_go ws existing tIdx ts).2.2).length = ts.length := by
  induction ts with
  | nil =>
    intro ws ex i
    rfl
  | cons t ts ih =>
    intro ws ex i
    show ((write_tables_step ws ex i t).2.2 ::
      (write_tables_go (write_tables_step ws ex i t).1
        (write_tables_step ws ex i t).2.1 (i + 1) ts).2.2).length = ts.length + 1
    rw [List.length_cons, ih]

theorem write_tables_go_bounds (ts : List TableJson) :
    ∀ (ws : Ws) (existing : List String) (tIdx i : Nat), i < ts.length →
    (((write_tables_go ws existing tIdx ts).2.2).getD i dummyOut).endRow =
      (((write_tables_go ws existing tIdx ts).2.2).getD i dummyOut).startRow +
        ((ts.getD i dummyTable).rows.getD []).length ∧
    (((write_tables_go ws existing tIdx ts).2.2).getD i dummyOut).endCol =
      (((write_tables_go ws existing tIdx ts).2.2).getD i dummyOut).startCol +
        tableNCols (ts.getD i dummyTable) - 1 := by
  induction ts with
  | nil =>
    intro ws ex tIdx i hi
    simp at hi
  | cons t ts ih =>
    intro ws ex tIdx i hi
    have hcons : (write_tables_go ws ex tIdx (t :: ts)).2.2 =
        (write_tables_step ws ex tIdx t).2.2 ::
          (write_tables_go (write_tables_step ws ex tIdx t).1
            (write_tables_step ws ex tIdx t).2.1 (tIdx + 1) ts).2.2 := rfl
    rw [hcons]
    match i with
    | 0 =>
      exact ⟨rfl, rfl⟩
    | i + 1 =>
      have h1 : ((write_tables_step ws ex tIdx t).2.2 ::
          (write_tables_go (write_tables_step ws ex tIdx t).1
            (write_tables_step ws ex tIdx t).2.1 (tIdx + 1) ts).2.2).getD (i + 1) dummyOut =
          ((write_tables_go (write_tables_step ws ex tIdx t).1
            (write_tables_step ws ex tIdx t).2.1 (tIdx + 1) ts).2.2).getD i dummyOut := rfl
      have h2 : ((t :: ts).getD (i + 1) dummyTable) = ts.getD i dummyTable := rfl
      rw [h1, h2]
      exact ih _ _ _ i (by simpa using hi)

/-- Claim C4 (amended): every table reconstructed by `write_tables` gets a
computed ref spanning exactly `row_count + 1` rows (one header row plus
one row per data row) and exactly
`max(header_count, max row-key count across rows)` columns — which equals
the header count only when no row carries keys beyond the declared
headers. -/
theorem write_tables_ref_span :
    ∀ (ws : Ws) (existing : List String) (ts : List TableJson) (i : Nat),
    i < ts.length →
    ((write_tables ws existing ts).2.2).length = ts.length ∧
    (((write_tables ws existing ts).2.2).getD i dummyOut).endRow + 1 -
        (((write_tables ws existing ts).2.2).getD i dummyOut).startRow =
      ((ts.getD i dummyTable).rows.getD []).length + 1 ∧
    (1 ≤ tableNCols (ts.getD i dummyTable) →
      (((write_tables ws existing ts).2.2).getD i dummyOut).endCol + 1 -
          (((write_tables ws existing ts).2.2).getD i dummyOut).startCol =
        tableNCols (ts.getD i dummyTable)) := by
  intro ws ex ts i hi
  obtain ⟨h1, h2⟩ := write_tables_go_bounds ts ws ex 0 i hi
  refine ⟨write_tables_go_length ts ws ex 0, ?_, ?_⟩
  · rw [write_tables] at *
    omega
  · intro hn
    rw [write_tables] at *
    omega

/-- Witness for C4: a one-header, one-row table spans two rows and one
column. -/
theorem write_tables_ref_span_witness :
    (((write_tables ⟨[]⟩ [] [⟨some "T", some ⟨2, 3, 9, 9⟩, some [JValue.str "a"],
        some [[("a", JValue.num 1)]]⟩]).2.2).getD 0 dummyOut).endRow + 1 -
      (((write_tables ⟨[]⟩ [] [⟨some "T", some ⟨2, 3, 9, 9⟩, some [JValue.str "a"],
        some [[("a", JValue.num 1)]]⟩]).2.2).getD 0 dummyOut).startRow = 2 ∧
    (((write_tables ⟨[]⟩ [] [⟨some "T", some ⟨2, 3, 9, 9⟩, some [JValue.str "a"],
        some [[("a", JValue.num 1)]]⟩]).2.2).getD 0 dummyOut).endCol + 1 -
      (((write_tables ⟨[]⟩ [] [⟨some "T", some ⟨2, 3, 9, 9⟩, some [JValue.str "a"],
        some [[("a", JValue.num 1)]]⟩]).2.2).getD 0 dummyOut).startCol = 1 := by
  have h := write_tables_ref_span ⟨[]⟩ []
    [⟨some "T", some ⟨2, 3, 9, 9⟩, some [JValue.str "a"], some [[("a", JValue.num 1)]]⟩]
    0 (by decide)
  exact ⟨h.2.1, h.2.2 (by decide)⟩

/-- Claim C4 counterexample: a table with one declared header whose single
row carries two keys — the computed ref spans
`max(header_count, row-key count) = 2` columns, not `header_count = 1`. -/
theorem write_tables_ref_span_exceeds_header_count :
    (((write_tables ⟨[]⟩ [] [⟨some "T", some ⟨1, 1, 4, 20⟩, some [JValue.str "a"],
        some [[("a", JValue.num 1), ("b", JValue.num 2)]]⟩]).2.2).getD 0 dummyOut).endCol + 1 -
      (((write_tables ⟨[]⟩ [] [⟨some "T", some ⟨1, 1, 4, 20⟩, some [JValue.str "a"],
        some [[("a", JValue.num 1), ("b", JValue.num 2)]]⟩]).2.2).getD 0 dummyOut).startCol = 2 ∧
    ([JValue.str "a"] : List JValue).length = 1 ∧
    (2 : Nat) ≠ 1 := by
  refine ⟨by decide, by decide, by decide⟩

/-- Claim C8 (amended): a table with a ref starts at the ref's top-left
bounds; a table without a ref starts at column 1 and at row `max_row + 2`
(one blank row below the existing content) when the sheet's `max_row`
exceeds 1, but at row 1 when `max_row ≤ 1` — which includes both the empty
sheet and a sheet whose content ends at row 1, the latter being
overwritten rather than separated. -/
theorem write_tables_start_position :
    ∀ (ws : Ws) (existing : List String) (tIdx : Nat) (t : TableJson),
    (∀ b, t.ref = some b →
      (write_tables_step ws existing tIdx t).2.2.startRow = b.minRow ∧
      (write_tables_step ws existing tIdx t).2.2.startCol = b.minCol) ∧
    (t.ref = none →
      (write_tables_step ws existing tIdx t).2.2.startRow =
        (if ws.maxRow > 1 then ws.maxRow + 2 else 1) ∧
      (write_tables_step ws existing tIdx t).2.2.startCol = 1) := by
  intro ws ex i t
  have h1 : (write_tables_step ws ex i t).2.2.startRow = (tableStart ws t.ref).1 := rfl
  have h2 : (write_tables_step ws ex i t).2.2.startCol = (tableStart ws t.ref).2 := rfl
  constructor
  · intro b hb
    rw [h1, h2, hb]
    exact ⟨rfl, rfl⟩
  · intro hb
    rw [h1, h2, hb]
    exact ⟨rfl, rfl⟩

/-- Witness for C8: a table with ref `C5:I9` starts at row 5 column 3; a
ref-less table on a sheet whose content reaches row 4 starts at row 6. -/
theorem write_tables_start_position_witness :
    (write_tables_step ⟨[]⟩ [] 0 ⟨some "T", some ⟨3, 5, 9, 9⟩, some [], some []⟩).2.2.startRow = 5 ∧
    (write_tables_step ⟨[]⟩ [] 0 ⟨some "T", some ⟨3, 5, 9, 9⟩, some [], some []⟩).2.2.startCol = 3 ∧
    (write_tables_step ⟨[((4, 1), Sum.inr PyCell.null)]⟩ [] 0
      ⟨some "T", none, some [JValue.str "H"], some []⟩).2.2.startRow = 6 := by
  have ha := (write_tables_start_position ⟨[]⟩ [] 0
    ⟨some "T", some ⟨3, 5, 9, 9⟩, some [], some []⟩).1 ⟨3, 5, 9, 9⟩ rfl
  have hb := (write_tables_start_position ⟨[((4, 1), Sum.inr PyCell.null)]⟩ [] 0
    ⟨some "T", none, some [JValue.str "H"], some []⟩).2 rfl
  refine ⟨ha.1, ha.2, ?_⟩
  rw [hb.1]
  decide

/-- Claim C8 counterexample: a first table occupies only row 1, so the
sheet is non-empty with `max_row = 1`; the second, ref-less table then
starts at row 1 — overwriting the existing content (two writes land on
cell `(1,1)`) — instead of leaving one blank row of separation (which
would mean starting at row `max_row + 2 = 3`). -/
theorem write_tables_no_ref_overwrites_row_one :
    ((write_tables_step ⟨[]⟩ [] 0
        ⟨some "T1", some ⟨1, 1, 1, 1⟩, some [JValue.str "H"], some []⟩).1.cells).length = 1 ∧
    (write_tables_step ⟨[]⟩ [] 0
        ⟨some "T1", some ⟨1, 1, 1, 1⟩, some [JValue.str "H"], some []⟩).1.maxRow = 1 ∧
    (((write_tables ⟨[]⟩ []
        [⟨some "T1", some ⟨1, 1, 1, 1⟩, some [JValue.str "H"], some []⟩,
         ⟨some "T2", none, some [JValue.str "H2"], some []⟩]).2.2).getD 1 dummyOut).startRow = 1 ∧
    (((write_tables ⟨[]⟩ []
        [⟨some "T1", some ⟨1, 1, 1, 1⟩, some [JValue.str "H"], some []⟩,
         ⟨some "T2", none, some [JValue.str "H2"], some []⟩]).2.2).getD 1 dummyOut).startRow ≠
      (write_tables_step ⟨[]⟩ [] 0
        ⟨some "T1", some ⟨1, 1, 1, 1⟩, some [JValue.str "H"], some []⟩).1.maxRow + 2 ∧
    (((write_tables ⟨[]⟩ []
        [⟨some "T1", some ⟨1, 1, 1, 1⟩, some [JValue.str "H"], some []⟩,
         ⟨some "T2", none, some [JValue.str "H2"], some []⟩]).1.cells).filter
      (fun cc => cc.1 == ((1 : Nat), (1 : Nat)))).length = 2 := by
  refine ⟨by decide, by decide, by decide, by decide, by decide⟩
